import Mathlib

/-!
Shallow embedding of the llm-client repository's protocol-normalizing core:
the chat request construction and streaming decode state machines of
`src/llmclient.rs` (`chat_stream`), the UI-side job discipline of
`src/chatapp.rs` (`send_message`, `process_response_chunks`), and the
image-generation request/response handling of `src/sdclient.rs`
(`generate_image`), together with theorems settling the specification
claims about them.

Modelling conventions: Rust `u32`/`usize` become `Nat` (no operation here
can overflow), `f32` configuration constants become `Rat` (they are only
assigned and compared, never computed with), fallible operations return
`Option`/`Except`, and the `serde_json` value type together with the exact
JSON fragments the code inspects is embedded as an executable `Json`
inductive with a fuelled parser.
-/

namespace LlmClient

/-- Model of `serde_json::Value`: the dynamic JSON values the Ollama decode
path of `chat_stream` navigates with `get`/`as_str`/`as_bool`. Numbers are
kept as their source lexemes; no claim inspects a numeric value. -/
inductive Json where
  | null
  | bool (b : Bool)
  | num (lit : String)
  | str (s : String)
  | arr (elems : List Json)
  | obj (fields : List (String × Json))

/-- JSON insignificant whitespace accepted between tokens. -/
def jsonWs (c : Char) : Bool :=
  c = ' ' ∨ c = '\t' ∨ c = '\n' ∨ c = '\r'

/-- Skip insignificant whitespace. -/
def skipWs : List Char → List Char
  | [] => []
  | c :: cs => if jsonWs c then skipWs cs else c :: cs

/-- Value of a hexadecimal digit. -/
def hexVal (c : Char) : Option Nat :=
  if '0' ≤ c ∧ c ≤ '9' then some (c.toNat - 48)
  else if 'a' ≤ c ∧ c ≤ 'f' then some (c.toNat - 97 + 10)
  else if 'A' ≤ c ∧ c ≤ 'F' then some (c.toNat - 65 + 10)
  else none

/-- Decode one escape sequence after a backslash inside a JSON string,
including `\uXXXX` with surrogate pairs, as `serde_json` does. -/
def parseEscape : List Char → Option (Char × List Char)
  | '"' :: r => some ('"', r)
  | '\\' :: r => some ('\\', r)
  | '/' :: r => some ('/', r)
  | 'b' :: r => some ('\x08', r)
  | 'f' :: r => some ('\x0c', r)
  | 'n' :: r => some ('\n', r)
  | 'r' :: r => some ('\r', r)
  | 't' :: r => some ('\t', r)
  | 'u' :: a :: b :: c :: d :: r =>
    match hexVal a, hexVal b, hexVal c, hexVal d with
    | some x1, some x2, some x3, some x4 =>
      let n := ((x1 * 16 + x2) * 16 + x3) * 16 + x4
      if 0xD800 ≤ n ∧ n ≤ 0xDBFF then
        match r with
        | '\\' :: 'u' :: e3 :: f3 :: g3 :: h3 :: r2 =>
          match hexVal e3, hexVal f3, hexVal g3, hexVal h3 with
          | some y1, some y2, some y3, some y4 =>
            let m := ((y1 * 16 + y2) * 16 + y3) * 16 + y4
            if 0xDC00 ≤ m ∧ m ≤ 0xDFFF then
              some (Char.ofNat (0x10000 + (n - 0xD800) * 0x400 + (m - 0xDC00)), r2)
            else none
          | _, _, _, _ => none
        | _ => none
      else if 0xDC00 ≤ n ∧ n ≤ 0xDFFF then none
      else some (Char.ofNat n, r)
    | _, _, _, _ => none
  | _ => none

/-- Parse the body of a JSON string literal after the opening quote;
unescaped control characters are rejected as `serde_json` rejects them.
The fuel bounds recursion; any fuel above the input length is enough. -/
def parseStrBody (fuel : Nat) (cs : List Char) : Option (String × List Char) :=
  match fuel with
  | 0 => none
  | Nat.succ f =>
    match cs with
    | [] => none
    | '"' :: rest => some ("", rest)
    | '\\' :: rest =>
      match parseEscape rest with
      | some (c, rest2) =>
        match parseStrBody f rest2 with
        | some (s, rest3) => some (String.singleton c ++ s, rest3)
        | none => none
      | none => none
    | c :: rest =>
      if c.toNat < 0x20 then none
      else
        match parseStrBody f rest with
        | some (s, rest3) => some (String.singleton c ++ s, rest3)
        | none => none

/-- Take a maximal run of decimal digits. -/
def takeDigits : List Char → List Char × List Char
  | [] => ([], [])
  | c :: rest =>
    if c.isDigit then
      match takeDigits rest with
      | (ds, r) => (c :: ds, r)
    else ([], c :: rest)

/-- Parse the exponent digits of a JSON number after `e`/`E`. -/
def parseExpDigits (mantissa : List Char) (e : List Char) (cs : List Char) :
    Option (List Char × List Char) :=
  match cs with
  | '+' :: r =>
    (match takeDigits r with
     | ([], _) => none
     | (ds, r2) => some (mantissa ++ e ++ '+' :: ds, r2))
  | '-' :: r =>
    (match takeDigits r with
     | ([], _) => none
     | (ds, r2) => some (mantissa ++ e ++ '-' :: ds, r2))
  | _ =>
    match takeDigits cs with
    | ([], _) => none
    | (ds, r2) => some (mantissa ++ e ++ ds, r2)

/-- Parse the optional exponent of a JSON number. -/
def parseExpTail (mantissa : List Char) (cs : List Char) : Option (List Char × List Char) :=
  match cs with
  | 'e' :: r => parseExpDigits mantissa ['e'] r
  | 'E' :: r => parseExpDigits mantissa ['E'] r
  | _ => some (mantissa, cs)

/-- Parse the optional fraction and exponent of a JSON number. -/
def parseNumTail (intPart : List Char) (cs : List Char) : Option (List Char × List Char) :=
  match cs with
  | '.' :: r =>
    (match takeDigits r with
     | ([], _) => none
     | (ds, r2) => parseExpTail (intPart ++ '.' :: ds) r2)
  | _ => parseExpTail intPart cs

/-- Parse a JSON number lexeme (sign, integer part without leading zeros,
optional fraction, optional exponent), returning the lexeme. -/
def parseNumLit (cs : List Char) : Option (List Char × List Char) :=
  match cs with
  | '-' :: cs1 =>
    (match cs1 with
     | '0' :: r => parseNumTail ['-', '0'] r
     | c :: _ =>
       if c.isDigit then
         match takeDigits cs1 with
         | (ds, r) => parseNumTail ('-' :: ds) r
       else none
     | [] => none)
  | '0' :: r => parseNumTail ['0'] r
  | c :: _ =>
    if c.isDigit then
      match takeDigits cs with
      | (ds, r) => parseNumTail ds r
    else none
  | [] => none

mutual

/-- Fuelled recursive-descent parse of one JSON value, modelling
`serde_json` parsing; returns the value and the unconsumed input. -/
def parseVal : Nat → List Char → Option (Json × List Char)
  | 0, _ => none
  | Nat.succ f, cs =>
    match skipWs cs with
    | 'n' :: 'u' :: 'l' :: 'l' :: rest => some (Json.null, rest)
    | 't' :: 'r' :: 'u' :: 'e' :: rest => some (Json.bool true, rest)
    | 'f' :: 'a' :: 'l' :: 's' :: 'e' :: rest => some (Json.bool false, rest)
    | '"' :: rest =>
      match parseStrBody (rest.length + 1) rest with
      | some (s, rest2) => some (Json.str s, rest2)
      | none => none
    | '[' :: rest => parseElems f (skipWs rest)
    | '\x7b' :: rest => parseFields f (skipWs rest)
    | cs' =>
      match parseNumLit cs' with
      | some (lit, rest) => some (Json.num (String.mk lit), rest)
      | none => none

/-- Parse array elements right after `[` (whitespace skipped). -/
def parseElems : Nat → List Char → Option (Json × List Char)
  | 0, _ => none
  | Nat.succ f, cs =>
    match cs with
    | ']' :: rest => some (Json.arr [], rest)
    | _ => parseElemsRest f cs

/-- Parse a non-empty comma-separated element list up to `]`. -/
def parseElemsRest : Nat → List Char → Option (Json × List Char)
  | 0, _ => none
  | Nat.succ f, cs =>
    match parseVal f cs with
    | none => none
    | some (v, rest) =>
      match skipWs rest with
      | ',' :: rest2 =>
        match parseElemsRest f rest2 with
        | some (Json.arr vs, rest3) => some (Json.arr (v :: vs), rest3)
        | _ => none
      | ']' :: rest2 => some (Json.arr [v], rest2)
      | _ => none

/-- Parse object fields right after the opening brace (whitespace skipped). -/
def parseFields : Nat → List Char → Option (Json × List Char)
  | 0, _ => none
  | Nat.succ f, cs =>
    match cs with
    | '\x7d' :: rest => some (Json.obj [], rest)
    | _ => parseFieldsRest f cs

/-- Parse a non-empty comma-separated member list up to the closing brace. -/
def parseFieldsRest : Nat → List Char → Option (Json × List Char)
  | 0, _ => none
  | Nat.succ f, cs =>
    match skipWs cs with
    | '"' :: rest =>
      match parseStrBody (rest.length + 1) rest with
      | some (k, rest2) =>
        match skipWs rest2 with
        | ':' :: rest3 =>
          match parseVal f rest3 with
          | none => none
          | some (v, rest4) =>
            match skipWs rest4 with
            | ',' :: rest5 =>
              match parseFieldsRest f rest5 with
              | some (Json.obj kvs, rest6) => some (Json.obj ((k, v) :: kvs), rest6)
              | _ => none
            | '\x7d' :: rest5 => some (Json.obj [(k, v)], rest5)
            | _ => none
        | _ => none
      | none => none
    | _ => none

end

/-- Parse a whole JSON document from characters: one value followed only by
whitespace, as `serde_json::from_str` requires. -/
def Json.parseChars (cs : List Char) : Option Json :=
  match parseVal (2 * cs.length + 4) cs with
  | some (v, rest) => if skipWs rest = [] then some v else none
  | none => none

/-- Parse a whole JSON document from a string. -/
def Json.parse (s : String) : Option Json :=
  Json.parseChars s.data

/-- Field lookup in an object's member list, first match. -/
def lookupField : List (String × Json) → String → Option Json
  | [], _ => none
  | (k', v) :: rest, k => if k' = k then some v else lookupField rest k

/-- Model of `serde_json::Value::get(key)`: field lookup on an object,
`None` on any other value. -/
def Json.getField? (j : Json) (k : String) : Option Json :=
  match j with
  | Json.obj fields => lookupField fields k
  | _ => none

/-- The two backend families (`src/endpoint_type.rs`). -/
inductive EndpointType where
  | lmStudio
  | ollama
deriving DecidableEq

/-- The streamed `delta` object of a compatible-family frame
(`DeltaContent` in `src/llmclient.rs`). -/
structure DeltaContent where
  content : Option String
deriving DecidableEq

/-- One element of `choices` in a compatible-family frame
(`Choice` in `src/llmclient.rs`). -/
structure Choice where
  delta : DeltaContent
  finish_reason : Option String
deriving DecidableEq

/-- A parsed compatible-family frame (`ChatResponse` in `src/llmclient.rs`). -/
structure ChatResponse where
  choices : List Choice
deriving DecidableEq

/-- Deserialize an `Option<String>` field with serde semantics: a missing
field or `null` is `None`, a string is `Some`, anything else is an error. -/
def optStringField (fields : List (String × Json)) (k : String) : Option (Option String) :=
  match lookupField fields k with
  | none => some none
  | some Json.null => some none
  | some (Json.str s) => some (some s)
  | some _ => none

/-- Deserialize `DeltaContent` with serde semantics. -/
def deltaContentFromJson : Json → Option DeltaContent
  | Json.obj fields =>
    match optStringField fields "content" with
    | some c => some ⟨c⟩
    | none => none
  | _ => none

/-- Deserialize `Choice` with serde semantics: `delta` is required,
`finish_reason` is optional. -/
def choiceFromJson : Json → Option Choice
  | Json.obj fields =>
    (match lookupField fields "delta" with
     | some dj =>
       match deltaContentFromJson dj with
       | some d =>
         match optStringField fields "finish_reason" with
         | some fr => some ⟨d, fr⟩
         | none => none
       | none => none
     | none => none)
  | _ => none

/-- Deserialize a list of `Choice` values. -/
def choicesFromJson : List Json → Option (List Choice)
  | [] => some []
  | j :: rest =>
    match choiceFromJson j with
    | some c =>
      match choicesFromJson rest with
      | some cs => some (c :: cs)
      | none => none
    | none => none

/-- Deserialize `ChatResponse` with serde semantics: `choices` is a
required array. -/
def chatResponseFromJson : Json → Option ChatResponse
  | Json.obj fields =>
    (match lookupField fields "choices" with
     | some (Json.arr js) =>
       match choicesFromJson js with
       | some cs => some ⟨cs⟩
       | none => none
     | _ => none)
  | _ => none

/-- Model of `serde_json::from_str::<ChatResponse>` applied to the payload
of one compatible-family frame (`chat_stream`, LMStudio branch). -/
def parseChatResponseChars (cs : List Char) : Option ChatResponse :=
  match Json.parseChars cs with
  | some j => chatResponseFromJson j
  | none => none

/-- The `message.content` access of the Ollama branch of `chat_stream`:
`response.get("message")` then `.get("content")` then `.as_str()`. -/
def ollamaContentOf (v : Json) : Option String :=
  match v.getField? "message" with
  | some m =>
    (match m.getField? "content" with
     | some (Json.str s) => some s
     | _ => none)
  | none => none

/-- The `done` access of the Ollama branch of `chat_stream`:
`response.get("done").and_then(|v| v.as_bool()).unwrap_or(false)`. -/
def ollamaDone (v : Json) : Bool :=
  match v.getField? "done" with
  | some (Json.bool b) => b
  | _ => false

/-- Unicode `White_Space` property, as Rust's `char::is_whitespace`. -/
def rustIsWhitespace (c : Char) : Bool :=
  c.toNat = 0x09 ∨ c.toNat = 0x0A ∨ c.toNat = 0x0B ∨ c.toNat = 0x0C ∨
  c.toNat = 0x0D ∨ c.toNat = 0x20 ∨ c.toNat = 0x85 ∨ c.toNat = 0xA0 ∨
  c.toNat = 0x1680 ∨ (0x2000 ≤ c.toNat ∧ c.toNat ≤ 0x200A) ∨
  c.toNat = 0x2028 ∨ c.toNat = 0x2029 ∨ c.toNat = 0x202F ∨
  c.toNat = 0x205F ∨ c.toNat = 0x3000

/-- Rust `text.trim().is_empty()`: every character is whitespace. -/
def trimEmpty (s : String) : Bool :=
  s.data.all rustIsWhitespace

/-- Rust `text.contains('\n')`. -/
def containsNewline (s : String) : Bool :=
  s.data.any (fun c => c = '\n')

/-- One content value's treatment in the Ollama branch of `chat_stream`
(lines 244-259): the exact standalone tokens `"<think>"` and `"</think>"`
are dropped (`none`), a pure-whitespace value containing a newline is
collapsed to `"\n"`, anything else is forwarded unchanged. -/
def ollamaContentAction (text : String) : Option String :=
  if text ≠ "<think>" ∧ text ≠ "</think>" then
    (if trimEmpty text ∧ containsNewline text then some "\n" else some text)
  else none

/-- Model of `SyncSender::send` on the bounded delta queue: `none` means
the receiver is never dropped (the 16384-slot queue never rejects a push
while the receiver lives); `some k` means the receiver is dropped after
`k` more successful pushes, after which every push fails forever. -/
def chanSend : Option Nat → Option Nat × Bool
  | none => (none, true)
  | some 0 => (some 0, false)
  | some (Nat.succ n) => (some n, true)

/-- Split a character list at `'\n'`. -/
def splitNl : List Char → List (List Char)
  | [] => [[]]
  | '\n' :: rest => [] :: splitNl rest
  | c :: rest =>
    match splitNl rest with
    | [] => [[c]]
    | l :: ls => (c :: l) :: ls

/-- Strip one trailing `'\r'`, as Rust `str::lines` does per line. -/
def stripCR : List Char → List Char
  | [] => []
  | ['\r'] => []
  | c :: rest => c :: stripCR rest

/-- Model of Rust `str::lines()` on a chunk: split at `'\n'`, drop the
empty piece after a final line terminator, strip one `'\r'` per line. -/
def rustLines (s : String) : List (List Char) :=
  let parts := splitNl s.data
  let parts := if parts.getLast? = some [] then parts.dropLast else parts
  parts.map stripCR

/-- Decidable equality for `Except`, used to evaluate decode results on
concrete streams. -/
instance instDecEqExcept {ε α : Type} [DecidableEq ε] [DecidableEq α] :
    DecidableEq (Except ε α)
  | Except.ok a, Except.ok b =>
    if h : a = b then Decidable.isTrue (by rw [h])
    else Decidable.isFalse (by intro hc; cases hc; exact h rfl)
  | Except.error a, Except.error b =>
    if h : a = b then Decidable.isTrue (by rw [h])
    else Decidable.isFalse (by intro hc; cases hc; exact h rfl)
  | Except.ok _, Except.error _ => Decidable.isFalse (by intro hc; cases hc)
  | Except.error _, Except.ok _ => Decidable.isFalse (by intro hc; cases hc)

/-- Outcome of processing the lines of one compatible-family chunk:
either the loop continues to the next chunk with an updated channel and
the deltas pushed so far, or `chat_stream` returns with a result. -/
inductive LMStep where
  | cont (chan : Option Nat) (deltas : List String)
  | halt (deltas : List String) (result : Except String Unit)
deriving DecidableEq

/-- Slice a line after the `"data: "` marker (`&line["data: ".len()..]`),
or `none` when the line does not start with the marker. -/
def lmLineBody? : List Char → Option (List Char)
  | 'd' :: 'a' :: 't' :: 'a' :: ':' :: ' ' :: rest => some rest
  | _ => none

/-- The per-line loop of the LMStudio branch of `chat_stream`
(lines 203-236): skip empty lines, the `"data: [DONE]"` line and lines
without the framing marker; skip lines whose payload fails to parse
(non-fatal frame parse error); for a parsed frame, push
`choices[0].delta.content` when present (a failed push returns `Ok`), and
return `Ok` when `choices[0].finish_reason` is non-null. -/
def lmProcessLines (chan : Option Nat) (lines : List (List Char)) : LMStep :=
  match lines with
  | [] => LMStep.cont chan []
  | line :: rest =>
    if line = [] ∨ line = "data: [DONE]".data then lmProcessLines chan rest
    else
      match lmLineBody? line with
      | none => lmProcessLines chan rest
      | some body =>
        match parseChatResponseChars body with
        | none => lmProcessLines chan rest
        | some resp =>
          match resp.choices.head? with
          | none => lmProcessLines chan rest
          | some choice =>
            match choice.delta.content with
            | some content =>
              (match chanSend chan with
               | (chan2, true) =>
                 if choice.finish_reason.isSome then LMStep.halt [content] (Except.ok ())
                 else
                   match lmProcessLines chan2 rest with
                   | LMStep.cont chan3 ds => LMStep.cont chan3 (content :: ds)
                   | LMStep.halt ds r => LMStep.halt (content :: ds) r
               | (_, false) => LMStep.halt [] (Except.ok ()))
            | none =>
              if choice.finish_reason.isSome then LMStep.halt [] (Except.ok ())
              else lmProcessLines chan rest

/-- One inbound item of `response.bytes_stream()`: a chunk's text
(after `String::from_utf8_lossy`) or a transport error. -/
abbrev StreamChunk := Except String String

/-- The chunk loop of the LMStudio branch of `chat_stream`: a transport
error aborts with the wrapped message, otherwise each chunk's lines are
processed; the deltas are those successfully pushed to the channel, and a
stream that ends without a terminal frame returns `Ok`. -/
def lm_decode (chan : Option Nat) (chunks : List StreamChunk) :
    List String × Except String Unit :=
  match chunks with
  | [] => ([], Except.ok ())
  | Except.error e :: _ => ([], Except.error ("Error reading stream: " ++ e))
  | Except.ok text :: rest =>
    match lmProcessLines chan (rustLines text) with
    | LMStep.halt ds r => (ds, r)
    | LMStep.cont chan2 ds =>
      let tail := lm_decode chan2 rest
      (ds ++ tail.1, tail.2)

/-- The chunk loop of the Ollama branch of `chat_stream` (lines 238-268):
each chunk is parsed as one whole JSON object with `if let Ok(..)` — a
chunk that fails to parse is silently skipped and nothing is carried over
to the next chunk; for a parsed object, `message.content` is pushed
through `ollamaContentAction` (a failed push returns `Ok`), and
`done == true` returns `Ok`. -/
def ollama_decode (chan : Option Nat) (chunks : List StreamChunk) :
    List String × Except String Unit :=
  match chunks with
  | [] => ([], Except.ok ())
  | Except.error e :: _ => ([], Except.error ("Error reading stream: " ++ e))
  | Except.ok text :: rest =>
    match Json.parse text with
    | none => ollama_decode chan rest
    | some v =>
      match ollamaContentOf v with
      | none =>
        if ollamaDone v then ([], Except.ok ()) else ollama_decode chan rest
      | some text2 =>
        match ollamaContentAction text2 with
        | none =>
          if ollamaDone v then ([], Except.ok ()) else ollama_decode chan rest
        | some d =>
          match chanSend chan with
          | (chan2, true) =>
            if ollamaDone v then ([d], Except.ok ())
            else
              let tail := ollama_decode chan2 rest
              (d :: tail.1, tail.2)
          | (_, false) => ([], Except.ok ())

/-- The streaming decode of `chat_stream`, dispatched on the backend
family as the code's `match self.endpoint_type` does. -/
def chat_stream_decode (et : EndpointType) (chan : Option Nat)
    (chunks : List StreamChunk) : List String × Except String Unit :=
  match et with
  | EndpointType.lmStudio => lm_decode chan chunks
  | EndpointType.ollama => ollama_decode chan chunks

/-- The message-array construction of `chat_stream` (lines 142-154): all
history entries except the last (`take (len - 1)`, saturating), then one
`{role:"user", content:prompt}` entry. -/
def chat_stream_messages (chat_history : List (String × String)) (prompt : String) :
    List (String × String) :=
  chat_history.take (chat_history.length - 1) ++ [("user", prompt)]

/-- The `(role, content)` pairs serialized into the request body for each
family (lines 157-177): the LMStudio branch re-packs the same array into
`ChatMessage` structs, the Ollama branch sends it as built. -/
def request_messages (et : EndpointType) (chat_history : List (String × String))
    (prompt : String) : List (String × String) :=
  match et with
  | EndpointType.lmStudio => (chat_stream_messages chat_history prompt).map (fun m => (m.1, m.2))
  | EndpointType.ollama => chat_stream_messages chat_history prompt

/-- State of the `poll_promise::Promise` holding a chat job: still
running, or ready with `chat_stream`'s result. -/
inductive JobState where
  | running
  | ready (result : Except String Unit)
deriving DecidableEq

/-- The chat-relevant state of `ChatApp` (`src/chatapp.rs`): the input
box, the conversation history, the pending job promise, the receiving end
of the delta queue (modelled as the queued deltas), and the accumulating
response buffer. -/
structure ChatApp where
  input : String
  chat_history : List (String × String)
  pending_response : Option JobState
  response_receiver : Option (List String)
  current_response : String
deriving DecidableEq

/-- Model of `ChatApp::send_message` (lines 145-167): a no-op when the
input is empty or a job is pending; otherwise take the input, push it to
history as a user turn, install a fresh receiver and a pending job, and
spawn `chat_stream` with the pushed history and the prompt (the spawned
call's arguments are returned alongside the new state). -/
def send_message (app : ChatApp) :
    ChatApp × Option (List (String × String) × String) :=
  if app.input = "" ∨ app.pending_response.isSome then (app, none)
  else
    let prompt := app.input
    let hist := app.chat_history ++ [("user", prompt)]
    ({ app with
        input := ""
        chat_history := hist
        response_receiver := some []
        pending_response := some JobState.running },
     some (hist, prompt))

/-- Model of `ChatApp::process_response_chunks` (lines 210-240): drain at
most one queued delta into the response buffer; if the pending job is
ready, commit — a failure with an empty buffer appends an error turn, a
failure with a non-empty buffer appends the buffer as an assistant turn,
success appends the buffer as an assistant turn only when non-empty —
then clear the buffer and reset the pending job and receiver to `none`. -/
def process_response_chunks (app : ChatApp) : ChatApp :=
  let app1 :=
    match app.response_receiver with
    | some (d :: ds) =>
      { app with
          current_response := app.current_response ++ d
          response_receiver := some ds }
    | _ => app
  match app1.pending_response with
  | some (JobState.ready result) =>
    let hist :=
      match result with
      | Except.error e =>
        if app1.current_response = "" then
          app1.chat_history ++ [("error", "Error: " ++ e)]
        else
          app1.chat_history ++ [("assistant", app1.current_response)]
      | Except.ok _ =>
        if app1.current_response ≠ "" then
          app1.chat_history ++ [("assistant", app1.current_response)]
        else
          app1.chat_history
    { app1 with
        chat_history := hist
        current_response := ""
        pending_response := none
        response_receiver := none }
  | _ => app1

/-- The response buffer as it stands at the terminal check inside
`process_response_chunks`: the stored buffer plus the one delta drained
on this tick, if any. -/
def drainedResponse (app : ChatApp) : String :=
  match app.response_receiver with
  | some (d :: _) => app.current_response ++ d
  | _ => app.current_response

/-- The image-generation request of `src/sdclient.rs`
(`TextToImageRequest`); `f32` fields are carried as `Rat` since the code
only assigns constants to them, and the always-empty `alwayson_scripts`
value is omitted. -/
structure TextToImageRequest where
  prompt : String
  negative_prompt : Option String
  steps : Nat
  cfg_scale : Rat
  width : Nat
  height : Nat
  sampler_name : String
  scheduler : Option String
  seed : Option Int
  enable_hr : Option Bool
  hr_scale : Option Rat
  hr_upscaler : Option String
  hr_second_pass_steps : Option Nat
  denoising_strength : Option Rat
deriving DecidableEq

/-- The request mutation at the top of `SDClient::generate_image`
(lines 222-226): the five hires-fix fields are assigned fixed values
before the POST, whatever they held. -/
def generate_image_request (request : TextToImageRequest) : TextToImageRequest :=
  { request with
      enable_hr := some true
      hr_scale := some 2
      hr_upscaler := some "Latent"
      hr_second_pass_steps := some (request.steps / 2)
      denoising_strength := some (0.55 : Rat) }

/-- Value of one standard-alphabet base64 character. -/
def b64Val (c : Char) : Option Nat :=
  if 'A' ≤ c ∧ c ≤ 'Z' then some (c.toNat - 65)
  else if 'a' ≤ c ∧ c ≤ 'z' then some (c.toNat - 97 + 26)
  else if '0' ≤ c ∧ c ≤ '9' then some (c.toNat - 48 + 52)
  else if c = '+' then some 62
  else if c = '/' then some 63
  else none

/-- Decode standard base64 four characters at a time, with mandatory
canonical padding and zero trailing bits, as the `base64` crate's
`general_purpose::STANDARD` engine requires. -/
def b64DecodeGroups : List Char → Option (List Nat)
  | [] => some []
  | c1 :: c2 :: c3 :: c4 :: rest =>
    (match b64Val c1, b64Val c2 with
     | some v1, some v2 =>
       if c3 = '=' ∧ c4 = '=' ∧ rest = [] then
         (if v2 % 16 = 0 then some [v1 * 4 + v2 / 16] else none)
       else
         match b64Val c3 with
         | some v3 =>
           if c4 = '=' ∧ rest = [] then
             (if v3 % 4 = 0 then
               some [v1 * 4 + v2 / 16, (v2 % 16) * 16 + v3 / 4]
              else none)
           else
             (match b64Val c4 with
              | some v4 =>
                (match b64DecodeGroups rest with
                 | some bs =>
                   some ([v1 * 4 + v2 / 16, (v2 % 16) * 16 + v3 / 4,
                          (v3 % 4) * 64 + v4] ++ bs)
                 | none => none)
              | none => none)
         | none => none
     | _, _ => none)
  | _ => none

/-- Model of `general_purpose::STANDARD.decode` on a base64 string;
bytes are `Nat` values below 256. -/
def base64_decode (s : String) : Option (List Nat) :=
  b64DecodeGroups s.data

/-- The response handling of `SDClient::generate_image` (lines 255-264)
on a successful (2xx, parsed) response carrying the base64 `images`
array: an empty array is a hard failure, otherwise exactly `images[0]` is
base64-decoded. -/
def generate_image_result (images : List String) : Except String (List Nat) :=
  match images with
  | [] => Except.error "No images returned from the server"
  | img :: _ =>
    match base64_decode img with
    | some bytes => Except.ok bytes
    | none => Except.error "Failed to decode base64 image"

/-- Concrete native-family wire fragment: the front half of a JSON object
split by the transport. -/
def c2chunk1 : String := "\x7b\"message\":\x7b\"content\":"

/-- Concrete native-family wire fragment: the back half of the same JSON
object. -/
def c2chunk2 : String := "\"hi\"\x7d,\"done\":true\x7d"

/-- Concrete compatible-family chunk carrying a `[DONE]` frame followed by
a content frame. -/
def c3chunk : String := "data: [DONE]\ndata: \x7b\"choices\":[\x7b\"delta\":\x7b\"content\":\"X\"\x7d\x7d]\x7d"

/-- Concrete generation request whose caller set `hr_scale` to 3. -/
def c5request : TextToImageRequest :=
  { prompt := "a cat"
    negative_prompt := none
    steps := 20
    cfg_scale := 7
    width := 512
    height := 512
    sampler_name := "Euler a"
    scheduler := none
    seed := none
    enable_hr := none
    hr_scale := some 3
    hr_upscaler := none
    hr_second_pass_steps := none
    denoising_strength := none }

/-- C5 counterexample: the caller of `c5request` set `hr_scale = 3`, yet
the payload `generate_image` submits carries `hr_scale = 2` — a hires-fix
parameter the caller already set does not keep its value. -/
theorem c5_hr_scale_not_kept :
    c5request.hr_scale = some 3 ∧
    (generate_image_request c5request).hr_scale = some 2 ∧
    (some (2 : Rat) : Option Rat) ≠ some 3 := by
  refine ⟨rfl, rfl, ?_⟩
  decide

/-- C5 (amended): when `generate_image` submits a request, all five
hires-fix parameters are unconditionally overwritten with the fixed
values `enable_hr = true`, `hr_scale = 2.0`, `hr_upscaler = "Latent"`,
`hr_second_pass_steps = floor(steps / 2)`, `denoising_strength = 0.55`,
whether or not the caller had set them, and all other request fields are
passed through unchanged. -/
theorem c5_hires_defaults_overwrite (r : TextToImageRequest) :
    (generate_image_request r).enable_hr = some true ∧
    (generate_image_request r).hr_scale = some 2 ∧
    (generate_image_request r).hr_upscaler = some "Latent" ∧
    (generate_image_request r).hr_second_pass_steps = some (r.steps / 2) ∧
    (generate_image_request r).denoising_strength = some (0.55 : Rat) ∧
    (generate_image_request r).prompt = r.prompt ∧
    (generate_image_request r).negative_prompt = r.negative_prompt ∧
    (generate_image_request r).steps = r.steps ∧
    (generate_image_request r).cfg_scale = r.cfg_scale ∧
    (generate_image_request r).width = r.width ∧
    (generate_image_request r).height = r.height ∧
    (generate_image_request r).sampler_name = r.sampler_name ∧
    (generate_image_request r).scheduler = r.scheduler ∧
    (generate_image_request r).seed = r.seed :=
  ⟨rfl, rfl, rfl, rfl, rfl, rfl, rfl, rfl, rfl, rfl, rfl, rfl, rfl, rfl⟩

/-- C10: `generate_image` sets `hr_upscaler` to `"Latent"` on every
request before sending, overwriting whatever the caller supplied. -/
theorem c10_hr_upscaler_latent (r : TextToImageRequest) :
    (generate_image_request r).hr_upscaler = some "Latent" := rfl

/-- C9: on a successful image-generation response, exactly the first
element of the base64 `images` array is decoded — zero images is the hard
failure `"No images returned from the server"`, the result of a non-empty
array depends only on its first element, and `["AAAA", "BBBB"]` succeeds
decoding only `"AAAA"` (three zero bytes). -/
theorem c9_first_image_decoded :
    generate_image_result [] = Except.error "No images returned from the server" ∧
    (∀ (img : String) (rest : List String),
      generate_image_result (img :: rest) = generate_image_result [img]) ∧
    generate_image_result ["AAAA", "BBBB"] = Except.ok [0, 0, 0] := by
  refine ⟨rfl, ?_, by decide⟩
  intro img rest
  rfl

/-- C7: `send_message` is a no-op when a job is pending or the input is
empty — the state (history, input, receiver, pending job) is returned
unchanged and no `chat_stream` call is spawned, so a session never holds
two jobs. -/
theorem c7_send_message_noop (app : ChatApp)
    (h : app.pending_response.isSome = true ∨ app.input = "") :
    send_message app = (app, none) := by
  unfold send_message
  rw [if_pos]
  rcases h with h | h
  · exact Or.inr h
  · exact Or.inl h

/-- C7 witness: a concrete no-op send on a state with an empty input. -/
theorem c7_witness :
    send_message ⟨"", [("user", "hi")], none, none, ""⟩ =
      (⟨"", [("user", "hi")], none, none, ""⟩, none) :=
  c7_send_message_noop ⟨"", [("user", "hi")], none, none, ""⟩ (Or.inr rfl)

/-- C1: whenever `send_message` spawns a `chat_stream` call, the message
array that call serializes — for either backend family — is the session
history before the send, verbatim and in order, followed by exactly one
`(role := "user", content := prompt)` entry. -/
theorem c1_messages_history_then_prompt (et : EndpointType) (app st : ChatApp)
    (hist : List (String × String)) (prompt : String)
    (hcall : send_message app = (st, some (hist, prompt))) :
    request_messages et hist prompt = app.chat_history ++ [("user", app.input)] := by
  unfold send_message at hcall
  by_cases hc : app.input = "" ∨ app.pending_response.isSome
  · rw [if_pos hc] at hcall
    simp at hcall
  · rw [if_neg hc] at hcall
    simp only [Prod.mk.injEq, Option.some.injEq] at hcall
    obtain ⟨-, hh, hp⟩ := hcall
    subst hh
    subst hp
    cases et <;>
      simp [request_messages, chat_stream_messages, List.take_left]

/-- C1 witness: a concrete send with one prior turn. -/
theorem c1_witness :
    request_messages EndpointType.ollama
        [("assistant", "prev"), ("user", "hello")] "hello" =
      [("assistant", "prev")] ++ [("user", "hello")] :=
  c1_messages_history_then_prompt EndpointType.ollama
    ⟨"hello", [("assistant", "prev")], none, none, ""⟩
    ⟨"", [("assistant", "prev"), ("user", "hello")], some JobState.running, some [], ""⟩
    [("assistant", "prev"), ("user", "hello")] "hello" (by decide)

/-- C6: when the pending chat job is ready (terminal), the consumer
commits: a non-empty accumulated buffer (including the delta drained on
this tick) is appended to history as an assistant turn whether the job
succeeded or failed; an empty buffer with a failed job appends an error
turn; an empty buffer with a successful job appends nothing; in every
case the buffer is cleared and the pending job and receiver are reset to
`none`. -/
theorem c6_terminal_commit (app : ChatApp) (r : Except String Unit)
    (hready : app.pending_response = some (JobState.ready r)) :
    (process_response_chunks app).pending_response = none ∧
    (process_response_chunks app).response_receiver = none ∧
    (process_response_chunks app).current_response = "" ∧
    (drainedResponse app ≠ "" →
      (process_response_chunks app).chat_history =
        app.chat_history ++ [("assistant", drainedResponse app)]) ∧
    (∀ e, drainedResponse app = "" → r = Except.error e →
      (process_response_chunks app).chat_history =
        app.chat_history ++ [("error", "Error: " ++ e)]) ∧
    (drainedResponse app = "" → r = Except.ok () →
      (process_response_chunks app).chat_history = app.chat_history) := by
  obtain ⟨inp, hist, pend, recv, cur⟩ := app
  replace hready : pend = some (JobState.ready r) := hready
  subst hready
  rcases r with e | u
  · rcases recv with _ | ⟨_ | ⟨d, ds⟩⟩
    · by_cases hbuf : cur = "" <;> simp_all [process_response_chunks, drainedResponse]
    · by_cases hbuf : cur = "" <;> simp_all [process_response_chunks, drainedResponse]
    · by_cases hbuf : cur ++ d = "" <;> simp_all [process_response_chunks, drainedResponse]
  · rcases recv with _ | ⟨_ | ⟨d, ds⟩⟩
    · by_cases hbuf : cur = "" <;> simp_all [process_response_chunks, drainedResponse]
    · by_cases hbuf : cur = "" <;> simp_all [process_response_chunks, drainedResponse]
    · by_cases hbuf : cur ++ d = "" <;> simp_all [process_response_chunks, drainedResponse]

/-- C6 witness: a failed job with one queued delta still pending is
committed as an assistant turn built from the drained buffer. -/
theorem c6_witness :
    (process_response_chunks
        ⟨"", [], some (JobState.ready (Except.error "boom")), some ["partial"], ""⟩).chat_history =
      [] ++ [("assistant", drainedResponse
        ⟨"", [], some (JobState.ready (Except.error "boom")), some ["partial"], ""⟩)] :=
  (c6_terminal_commit
    ⟨"", [], some (JobState.ready (Except.error "boom")), some ["partial"], ""⟩
    (Except.error "boom") rfl).2.2.2.1 (by decide)

/-- C2: the native-family decoder does not buffer across chunk
boundaries — a well-formed object split into two transport chunks is
dropped whole: each half fails to parse and is skipped, so no delta is
emitted and the object's `done` flag is lost, even though the
concatenation of the two chunks parses to an object whose
`message.content` is `"hi"` and whose `done` is `true`. -/
theorem c2_split_object_dropped :
    ollama_decode none [Except.ok c2chunk1, Except.ok c2chunk2] = ([], Except.ok ()) ∧
    (Json.parse c2chunk1).isNone = true ∧
    (Json.parse c2chunk2).isNone = true ∧
    (Json.parse (c2chunk1 ++ c2chunk2)).bind ollamaContentOf = some "hi" ∧
    (Json.parse (c2chunk1 ++ c2chunk2)).map ollamaDone = some true := by
  decide

/-- C3 counterexample: a chunk whose first line is the `"data: [DONE]"`
frame and whose second line carries content `"X"` still emits the delta
`"X"` — decoding does not terminate at the `[DONE]` frame, contradicting
the claim that `[DONE]` is a terminal signal. -/
theorem c3_done_not_terminal :
    rustLines c3chunk =
      ["data: [DONE]".data,
       "data: \x7b\"choices\":[\x7b\"delta\":\x7b\"content\":\"X\"\x7d\x7d]\x7d".data] ∧
    lm_decode none [Except.ok c3chunk] = (["X"], Except.ok ()) ∧
    (["X"] : List String) ≠ [] := by
  refine ⟨by decide, by decide, ?_⟩
  decide

/-- C3 (amended): in the compatible-family decode the literal framed
payload `"data: [DONE]"` is skipped — it produces no delta and decoding
continues past it rather than terminating; the in-stream terminal-success
signal is a non-null `finish_reason` on the first choice of a parsed
frame, and an exhausted stream also ends with success. -/
theorem c3_done_skipped_finish_terminal :
    (∀ (chan : Option Nat) (rest : List (List Char)),
      lmProcessLines chan ("data: [DONE]".data :: rest) = lmProcessLines chan rest) ∧
    (∀ (chan : Option Nat) (rest : List (List Char)) (line body : List Char)
       (resp : ChatResponse) (choice : Choice),
      line ≠ "data: [DONE]".data →
      lmLineBody? line = some body →
      parseChatResponseChars body = some resp →
      resp.choices.head? = some choice →
      choice.delta.content = none →
      choice.finish_reason.isSome = true →
      lmProcessLines chan (line :: rest) = LMStep.halt [] (Except.ok ())) ∧
    (∀ chan : Option Nat, lm_decode chan [] = ([], Except.ok ())) := by
  refine ⟨?_, ?_, fun _ => rfl⟩
  · intro chan rest
    simp [lmProcessLines]
  · intro chan rest line body resp choice hne hbody hparse hhead hcontent hfinish
    have hne2 : ¬(line = [] ∨ line = "data: [DONE]".data) := by
      rintro (rfl | rfl)
      · simp [lmLineBody?] at hbody
      · exact hne rfl
    rw [lmProcessLines, if_neg hne2, hbody]
    simp only
    rw [hparse]
    simp only
    rw [hhead]
    simp only
    rw [hcontent]
    simp [hfinish]

/-- C3 witness: a concrete finish-reason frame terminates the line loop
with success and no delta. -/
theorem c3_witness :
    lmProcessLines none
        ["data: \x7b\"choices\":[\x7b\"delta\":\x7b\x7d,\"finish_reason\":\"stop\"\x7d]\x7d".data] =
      LMStep.halt [] (Except.ok ()) :=
  c3_done_skipped_finish_terminal.2.1 none []
    "data: \x7b\"choices\":[\x7b\"delta\":\x7b\x7d,\"finish_reason\":\"stop\"\x7d]\x7d".data
    "\x7b\"choices\":[\x7b\"delta\":\x7b\x7d,\"finish_reason\":\"stop\"\x7d]\x7d".data
    ⟨[⟨⟨none⟩, some "stop"⟩]⟩ ⟨⟨none⟩, some "stop"⟩
    (by decide) (by decide) (by decide) rfl rfl rfl

/-- Every delta the native-family decode pushes is the image of some
content value under `ollamaContentAction`. -/
theorem ollama_decode_delta_src (chunks : List StreamChunk) :
    ∀ (chan : Option Nat) (d : String),
      d ∈ (ollama_decode chan chunks).1 →
      ∃ c, ollamaContentAction c = some d := by
  induction chunks with
  | nil =>
    intro chan d h
    simp [ollama_decode] at h
  | cons ch rest ih =>
    intro chan d h
    cases ch with
    | error e => simp [ollama_decode] at h
    | ok text =>
      rw [ollama_decode] at h
      rcases hp : Json.parse text with _ | v
      · rw [hp] at h
        exact ih chan d h
      · rw [hp] at h
        dsimp only at h
        rcases hc : ollamaContentOf v with _ | t2
        · rw [hc] at h
          dsimp only at h
          rcases hd : ollamaDone v <;> simp only [hd] at h
          · exact ih chan d h
          · simp at h
        · rw [hc] at h
          dsimp only at h
          rcases ha : ollamaContentAction t2 with _ | dd
          · rw [ha] at h
            dsimp only at h
            rcases hd : ollamaDone v <;> simp only [hd] at h
            · exact ih chan d h
            · simp at h
          · rw [ha] at h
            dsimp only at h
            rcases hs : chanSend chan with ⟨chan2, b⟩
            rw [hs] at h
            cases b
            · simp at h
            · rcases hd : ollamaDone v <;> simp [hd] at h
              · rcases h with rfl | h
                · exact ⟨t2, ha⟩
                · exact ih chan2 d h
              · subst h
                exact ⟨t2, ha⟩

/-- The per-content transform never produces a standalone think token. -/
theorem ollamaContentAction_not_think (c d : String)
    (h : ollamaContentAction c = some d) :
    d ≠ "<think>" ∧ d ≠ "</think>" := by
  unfold ollamaContentAction at h
  by_cases hc : c ≠ "<think>" ∧ c ≠ "</think>"
  · rw [if_pos hc] at h
    by_cases hw : trimEmpty c ∧ containsNewline c
    · rw [if_pos hw] at h
      cases h
      constructor <;> decide
    · rw [if_neg hw] at h
      cases h
      exact hc
  · rw [if_neg hc] at h
    cases h

/-- C4: on every native-family stream — however split into chunks and
whatever the channel state — no emitted delta is exactly `"<think>"` or
`"</think>"`; a content value that is pure whitespace containing a
newline is forwarded as the single delta `"\n"`; and a content value that
is not one of the two exact tokens and not whitespace-with-newline is
forwarded unchanged (the tokens are dropped only on exact equality, not
as substrings). -/
theorem c4_think_tokens_filtered :
    (∀ (chan : Option Nat) (chunks : List StreamChunk) (d : String),
      d ∈ (ollama_decode chan chunks).1 →
      d ≠ "<think>" ∧ d ≠ "</think>") ∧
    (∀ text : String, trimEmpty text = true → containsNewline text = true →
      ollamaContentAction text = some "\n") ∧
    (∀ text : String, text ≠ "<think>" → text ≠ "</think>" →
      ¬(trimEmpty text = true ∧ containsNewline text = true) →
      ollamaContentAction text = some text) := by
  refine ⟨?_, ?_, ?_⟩
  · intro chan chunks d h
    obtain ⟨c, hc⟩ := ollama_decode_delta_src chunks chan d h
    exact ollamaContentAction_not_think c d hc
  · intro text h1 h2
    have hne1 : text ≠ "<think>" := by
      intro h
      subst h
      exact absurd h2 (by decide)
    have hne2 : text ≠ "</think>" := by
      intro h
      subst h
      exact absurd h2 (by decide)
    unfold ollamaContentAction
    rw [if_pos ⟨hne1, hne2⟩, if_pos ⟨h1, h2⟩]
  · intro text h1 h2 h3
    unfold ollamaContentAction
    rw [if_pos ⟨h1, h2⟩, if_neg h3]

/-- C4 witness: on a concrete two-object stream the emitted delta
`"reasoning"` is not a think token; the whitespace value `" \n "`
collapses to `"\n"`; and the longer value `"a<think>b"` passes through
unchanged. -/
theorem c4_witness :
    ("reasoning" ≠ "<think>" ∧ "reasoning" ≠ "</think>") ∧
    ollamaContentAction " \n " = some "\n" ∧
    ollamaContentAction "a<think>b" = some "a<think>b" :=
  ⟨c4_think_tokens_filtered.1 none
      [Except.ok "\x7b\"message\":\x7b\"content\":\"<think>\"\x7d,\"done\":false\x7d",
       Except.ok "\x7b\"message\":\x7b\"content\":\"reasoning\"\x7d,\"done\":true\x7d"]
      "reasoning" (by decide),
   c4_think_tokens_filtered.2.1 " \n " (by decide) (by decide),
   c4_think_tokens_filtered.2.2 "a<think>b" (by decide) (by decide) (by decide)⟩

/-- Running the native-family decode against a receiver dropped after `k`
further pushes: if the unrestricted run would push more than `k` deltas,
the limited run delivers exactly the first `k` and returns success at the
failed push; otherwise it behaves exactly like the unrestricted run. -/
theorem ollama_decode_limited (chunks : List StreamChunk) :
    ∀ k : Nat,
      (k < (ollama_decode none chunks).1.length →
        ollama_decode (some k) chunks =
          ((ollama_decode none chunks).1.take k, Except.ok ())) ∧
      ((ollama_decode none chunks).1.length ≤ k →
        ollama_decode (some k) chunks = ollama_decode none chunks) := by
  induction chunks with
  | nil =>
    intro k
    refine ⟨fun h => ?_, fun _ => rfl⟩
    simp [ollama_decode] at h
  | cons ch rest ih =>
    intro k
    cases ch with
    | error e =>
      refine ⟨fun h => ?_, fun _ => rfl⟩
      simp [ollama_decode] at h
    | ok text =>
      rcases hp : Json.parse text with _ | v
      · have e1 : ∀ chan, ollama_decode chan (Except.ok text :: rest) = ollama_decode chan rest := by
          intro chan
          simp [ollama_decode, hp]
        rw [e1, e1]
        exact ih k
      · rcases hc : ollamaContentOf v with _ | t2
        · rcases hd : ollamaDone v
          · have e1 : ∀ chan, ollama_decode chan (Except.ok text :: rest) = ollama_decode chan rest := by
              intro chan
              simp [ollama_decode, hp, hc, hd]
            rw [e1, e1]
            exact ih k
          · have e1 : ∀ chan, ollama_decode chan (Except.ok text :: rest) = ([], Except.ok ()) := by
              intro chan
              simp [ollama_decode, hp, hc, hd]
            rw [e1, e1]
            exact ⟨fun h => by simp at h, fun _ => rfl⟩
        · rcases ha : ollamaContentAction t2 with _ | dd
          · rcases hd : ollamaDone v
            · have e1 : ∀ chan, ollama_decode chan (Except.ok text :: rest) = ollama_decode chan rest := by
                intro chan
                simp [ollama_decode, hp, hc, ha, hd]
              rw [e1, e1]
              exact ih k
            · have e1 : ∀ chan, ollama_decode chan (Except.ok text :: rest) = ([], Except.ok ()) := by
                intro chan
                simp [ollama_decode, hp, hc, ha, hd]
              rw [e1, e1]
              exact ⟨fun h => by simp at h, fun _ => rfl⟩
          · have e_zero : ollama_decode (some 0) (Except.ok text :: rest) = ([], Except.ok ()) := by
              simp [ollama_decode, hp, hc, ha, chanSend]
            rcases hd : ollamaDone v
            · have e_none : ollama_decode none (Except.ok text :: rest) =
                  (dd :: (ollama_decode none rest).1, (ollama_decode none rest).2) := by
                simp [ollama_decode, hp, hc, ha, hd, chanSend]
              have e_succ : ∀ n, ollama_decode (some (n + 1)) (Except.ok text :: rest) =
                  (dd :: (ollama_decode (some n) rest).1, (ollama_decode (some n) rest).2) := by
                intro n
                simp [ollama_decode, hp, hc, ha, hd, chanSend]
              rw [e_none]
              constructor
              · intro h
                simp only [List.length_cons] at h
                rcases k with _ | n
                · rw [e_zero]
                  simp
                · rw [e_succ n]
                  have hn : n < (ollama_decode none rest).1.length := by omega
                  rw [(ih n).1 hn]
                  simp [List.take_succ_cons]
              · intro h
                simp only [List.length_cons] at h
                rcases k with _ | n
                · omega
                · rw [e_succ n]
                  have hn : (ollama_decode none rest).1.length ≤ n := by omega
                  rw [(ih n).2 hn]
            · have e_none : ollama_decode none (Except.ok text :: rest) = ([dd], Except.ok ()) := by
                simp [ollama_decode, hp, hc, ha, hd, chanSend]
              have e_succ : ∀ n, ollama_decode (some (n + 1)) (Except.ok text :: rest) =
                  ([dd], Except.ok ()) := by
                intro n
                simp [ollama_decode, hp, hc, ha, hd, chanSend]
              rw [e_none]
              constructor
              · intro h
                simp only [List.length_singleton] at h
                rcases k with _ | n
                · rw [e_zero]
                  simp
                · omega
              · intro h
                simp only [List.length_singleton] at h
                rcases k with _ | n
                · omega
                · rw [e_succ n]

/-- Running the compatible-family line loop against a receiver dropped
after `k` further pushes, compared with the unrestricted run: the
unrestricted run keeps an undropped channel; if it pushes more than `k`
deltas, the limited run halts with success delivering exactly the first
`k`; otherwise the limited run mirrors it with the remaining capacity. -/
theorem lm_lines_limited (lines : List (List Char)) :
    ∀ k : Nat,
      (∀ c ds, lmProcessLines none lines = LMStep.cont c ds →
        c = none ∧
        (k < ds.length →
          lmProcessLines (some k) lines = LMStep.halt (ds.take k) (Except.ok ())) ∧
        (ds.length ≤ k →
          lmProcessLines (some k) lines = LMStep.cont (some (k - ds.length)) ds)) ∧
      (∀ ds r, lmProcessLines none lines = LMStep.halt ds r →
        (k < ds.length →
          lmProcessLines (some k) lines = LMStep.halt (ds.take k) (Except.ok ())) ∧
        (ds.length ≤ k →
          lmProcessLines (some k) lines = LMStep.halt ds r)) := by
  induction lines with
  | nil =>
    intro k
    constructor
    · intro c ds heq
      rw [lmProcessLines] at heq
      cases heq
      refine ⟨rfl, fun h => by simp at h, fun _ => ?_⟩
      rw [lmProcessLines]
      simp
    · intro ds r heq
      rw [lmProcessLines] at heq
      cases heq
  | cons line rest ih =>
    intro k
    by_cases hskip : line = [] ∨ line = "data: [DONE]".data
    · have e1 : ∀ chan, lmProcessLines chan (line :: rest) = lmProcessLines chan rest := by
        intro chan
        rw [lmProcessLines, if_pos hskip]
      simp only [e1]
      exact ih k
    · rcases hb : lmLineBody? line with _ | body
      · have e1 : ∀ chan, lmProcessLines chan (line :: rest) = lmProcessLines chan rest := by
          intro chan
          rw [lmProcessLines, if_neg hskip, hb]
        simp only [e1]
        exact ih k
      · rcases hpr : parseChatResponseChars body with _ | resp
        · have e1 : ∀ chan, lmProcessLines chan (line :: rest) = lmProcessLines chan rest := by
            intro chan
            rw [lmProcessLines, if_neg hskip, hb]
            dsimp only
            rw [hpr]
          simp only [e1]
          exact ih k
        · rcases hh : resp.choices.head? with _ | choice
          · have e1 : ∀ chan, lmProcessLines chan (line :: rest) = lmProcessLines chan rest := by
              intro chan
              rw [lmProcessLines, if_neg hskip, hb]
              dsimp only
              rw [hpr]
              dsimp only
              rw [hh]
            simp only [e1]
            exact ih k
          · rcases hct : choice.delta.content with _ | content
            · rcases hf : choice.finish_reason.isSome
              · have e1 : ∀ chan, lmProcessLines chan (line :: rest) = lmProcessLines chan rest := by
                  intro chan
                  rw [lmProcessLines, if_neg hskip, hb]
                  dsimp only
                  rw [hpr]
                  dsimp only
                  rw [hh]
                  dsimp only
                  rw [hct]
                  simp [hf]
                simp only [e1]
                exact ih k
              · have e1 : ∀ chan, lmProcessLines chan (line :: rest) = LMStep.halt [] (Except.ok ()) := by
                  intro chan
                  rw [lmProcessLines, if_neg hskip, hb]
                  dsimp only
                  rw [hpr]
                  dsimp only
                  rw [hh]
                  dsimp only
                  rw [hct]
                  simp [hf]
                constructor
                · intro c ds heq
                  rw [e1] at heq
                  cases heq
                · intro ds r heq
                  rw [e1] at heq
                  cases heq
                  refine ⟨fun h => by simp at h, fun _ => e1 (some k)⟩
            · rcases hf : choice.finish_reason.isSome
              · -- content pushed, no finish reason: send then continue
                have e_zero : lmProcessLines (some 0) (line :: rest) = LMStep.halt [] (Except.ok ()) := by
                  rw [lmProcessLines, if_neg hskip, hb]
                  dsimp only
                  rw [hpr]
                  dsimp only
                  rw [hh]
                  dsimp only
                  rw [hct]
                  simp [chanSend]
                rcases hrest : lmProcessLines none rest with ⟨c', ds'⟩ | ⟨ds', r'⟩
                · obtain ⟨hc', -, -⟩ := (ih k).1 c' ds' hrest
                  subst hc'
                  have e_none : lmProcessLines none (line :: rest) =
                      LMStep.cont none (content :: ds') := by
                    rw [lmProcessLines, if_neg hskip, hb]
                    dsimp only
                    rw [hpr]
                    dsimp only
                    rw [hh]
                    dsimp only
                    rw [hct]
                    simp [chanSend, hf, hrest]
                  constructor
                  · intro c ds heq
                    rw [e_none] at heq
                    cases heq
                    refine ⟨rfl, fun h => ?_, fun h => ?_⟩
                    · rcases k with _ | n
                      · rw [e_zero]
                        simp
                      · simp only [List.length_cons] at h
                        have hn : n < ds'.length := by omega
                        obtain ⟨-, h1, -⟩ := (ih n).1 none ds' hrest
                        have hx := h1 hn
                        rw [lmProcessLines, if_neg hskip, hb]
                        dsimp only
                        rw [hpr]
                        dsimp only
                        rw [hh]
                        dsimp only
                        rw [hct]
                        simp [chanSend, hf, hx, List.take_succ_cons]
                    · rcases k with _ | n
                      · simp only [List.length_cons] at h
                        omega
                      · simp only [List.length_cons] at h
                        have hn : ds'.length ≤ n := by omega
                        obtain ⟨-, -, h2⟩ := (ih n).1 none ds' hrest
                        have hx := h2 hn
                        rw [lmProcessLines, if_neg hskip, hb]
                        dsimp only
                        rw [hpr]
                        dsimp only
                        rw [hh]
                        dsimp only
                        rw [hct]
                        simp only [chanSend, hf, hx, Bool.false_eq_true, if_false]
                        simp [Nat.succ_sub_succ]
                  · intro ds r heq
                    rw [e_none] at heq
                    cases heq
                · have e_none : lmProcessLines none (line :: rest) =
                      LMStep.halt (content :: ds') r' := by
                    rw [lmProcessLines, if_neg hskip, hb]
                    dsimp only
                    rw [hpr]
                    dsimp only
                    rw [hh]
                    dsimp only
                    rw [hct]
                    simp [chanSend, hf, hrest]
                  constructor
                  · intro c ds heq
                    rw [e_none] at heq
                    cases heq
                  · intro ds r heq
                    rw [e_none] at heq
                    cases heq
                    refine ⟨fun h => ?_, fun h => ?_⟩
                    · rcases k with _ | n
                      · rw [e_zero]
                        simp
                      · simp only [List.length_cons] at h
                        have hn : n < ds'.length := by omega
                        have hx := ((ih n).2 ds' r' hrest).1 hn
                        rw [lmProcessLines, if_neg hskip, hb]
                        dsimp only
                        rw [hpr]
                        dsimp only
                        rw [hh]
                        dsimp only
                        rw [hct]
                        simp [chanSend, hf, hx, List.take_succ_cons]
                    · rcases k with _ | n
                      · simp only [List.length_cons] at h
                        omega
                      · simp only [List.length_cons] at h
                        have hn : ds'.length ≤ n := by omega
                        have hx := ((ih n).2 ds' r' hrest).2 hn
                        rw [lmProcessLines, if_neg hskip, hb]
                        dsimp only
                        rw [hpr]
                        dsimp only
                        rw [hh]
                        dsimp only
                        rw [hct]
                        simp [chanSend, hf, hx]
              · -- content pushed and finish reason present: halt after the push
                have e_zero : lmProcessLines (some 0) (line :: rest) = LMStep.halt [] (Except.ok ()) := by
                  rw [lmProcessLines, if_neg hskip, hb]
                  dsimp only
                  rw [hpr]
                  dsimp only
                  rw [hh]
                  dsimp only
                  rw [hct]
                  simp [chanSend]
                have e_none : lmProcessLines none (line :: rest) =
                    LMStep.halt [content] (Except.ok ()) := by
                  rw [lmProcessLines, if_neg hskip, hb]
                  dsimp only
                  rw [hpr]
                  dsimp only
                  rw [hh]
                  dsimp only
                  rw [hct]
                  simp [chanSend, hf]
                have e_succ : ∀ n, lmProcessLines (some (n + 1)) (line :: rest) =
                    LMStep.halt [content] (Except.ok ()) := by
                  intro n
                  rw [lmProcessLines, if_neg hskip, hb]
                  dsimp only
                  rw [hpr]
                  dsimp only
                  rw [hh]
                  dsimp only
                  rw [hct]
                  simp [chanSend, hf]
                constructor
                · intro c ds heq
                  rw [e_none] at heq
                  cases heq
                · intro ds r heq
                  rw [e_none] at heq
                  cases heq
                  refine ⟨fun h => ?_, fun h => ?_⟩
                  · rcases k with _ | n
                    · rw [e_zero]
                      simp
                    · simp only [List.length_singleton] at h
                      omega
                  · rcases k with _ | n
                    · simp only [List.length_singleton] at h
                      omega
                    · exact e_succ n

/-- Chunk-level analogue of `lm_lines_limited` for the compatible-family
decode loop. -/
theorem lm_decode_limited (chunks : List StreamChunk) :
    ∀ k : Nat,
      (k < (lm_decode none chunks).1.length →
        lm_decode (some k) chunks =
          ((lm_decode none chunks).1.take k, Except.ok ())) ∧
      ((lm_decode none chunks).1.length ≤ k →
        lm_decode (some k) chunks = lm_decode none chunks) := by
  induction chunks with
  | nil =>
    intro k
    refine ⟨fun h => ?_, fun _ => rfl⟩
    simp [lm_decode] at h
  | cons ch rest ih =>
    intro k
    cases ch with
    | error e =>
      refine ⟨fun h => ?_, fun _ => rfl⟩
      simp [lm_decode] at h
    | ok text =>
      rcases hl : lmProcessLines none (rustLines text) with ⟨c', ds'⟩ | ⟨ds', r'⟩
      · obtain ⟨hc', -, -⟩ := (lm_lines_limited (rustLines text) k).1 c' ds' hl
        subst hc'
        have e_none : lm_decode none (Except.ok text :: rest) =
            (ds' ++ (lm_decode none rest).1, (lm_decode none rest).2) := by
          rw [lm_decode, hl]
        by_cases hk : k < ds'.length
        · obtain ⟨-, h1, -⟩ := (lm_lines_limited (rustLines text) k).1 none ds' hl
          have e_lim : lm_decode (some k) (Except.ok text :: rest) =
              (ds'.take k, Except.ok ()) := by
            rw [lm_decode, h1 hk]
          constructor
          · intro h
            rw [e_none, e_lim]
            rw [List.take_append_of_le_length (le_of_lt hk)]
          · intro h
            rw [e_none] at h
            simp only [List.length_append] at h
            omega
        · push_neg at hk
          obtain ⟨-, -, h2⟩ := (lm_lines_limited (rustLines text) k).1 none ds' hl
          have e_lim : lm_decode (some k) (Except.ok text :: rest) =
              (ds' ++ (lm_decode (some (k - ds'.length)) rest).1,
               (lm_decode (some (k - ds'.length)) rest).2) := by
            rw [lm_decode, h2 hk]
          constructor
          · intro h
            rw [e_none] at h ⊢
            simp only [List.length_append] at h
            have hn : k - ds'.length < (lm_decode none rest).1.length := by omega
            rw [e_lim, (ih (k - ds'.length)).1 hn]
            simp [List.take_append_eq_append_take, List.take_of_length_le hk]
          · intro h
            rw [e_none] at h ⊢
            simp only [List.length_append] at h
            have hn : (lm_decode none rest).1.length ≤ k - ds'.length := by omega
            rw [e_lim, (ih (k - ds'.length)).2 hn]
      · have e_none : lm_decode none (Except.ok text :: rest) = (ds', r') := by
          rw [lm_decode, hl]
        by_cases hk : k < ds'.length
        · have hx := ((lm_lines_limited (rustLines text) k).2 ds' r' hl).1 hk
          have e_lim : lm_decode (some k) (Except.ok text :: rest) =
              (ds'.take k, Except.ok ()) := by
            rw [lm_decode, hx]
          constructor
          · intro h
            rw [e_none, e_lim]
          · intro h
            rw [e_none] at h
            simp only at h
            omega
        · push_neg at hk
          have hx := ((lm_lines_limited (rustLines text) k).2 ds' r' hl).2 hk
          have e_lim : lm_decode (some k) (Except.ok text :: rest) = (ds', r') := by
            rw [lm_decode, hx]
          refine ⟨fun h => ?_, fun _ => by rw [e_none, e_lim]⟩
          rw [e_none] at h
          simp only at h
          omega

/-- C8: for either backend family, if the receiver of the delta queue is
dropped after `k` pushes while the stream would produce more, the
producing `chat_stream` loop stops at the next push attempt — it delivers
exactly the first `k` deltas and returns success (`Ok`), never an
error. -/
theorem c8_receiver_drop_is_cancellation (et : EndpointType)
    (chunks : List StreamChunk) (k : Nat)
    (h : k < (chat_stream_decode et none chunks).1.length) :
    chat_stream_decode et (some k) chunks =
      ((chat_stream_decode et none chunks).1.take k, Except.ok ()) := by
  cases et
  · exact (lm_decode_limited chunks k).1 h
  · exact (ollama_decode_limited chunks k).1 h

/-- C8 witness: a receiver dropped before the first push of a concrete
native-family stream makes the producer return success with no delta
delivered. -/
theorem c8_witness :
    chat_stream_decode EndpointType.ollama (some 0)
        [Except.ok "\x7b\"message\":\x7b\"content\":\"hi\"\x7d,\"done\":false\x7d"] =
      ((chat_stream_decode EndpointType.ollama none
          [Except.ok "\x7b\"message\":\x7b\"content\":\"hi\"\x7d,\"done\":false\x7d"]).1.take 0,
       Except.ok ()) :=
  c8_receiver_drop_is_cancellation EndpointType.ollama
    [Except.ok "\x7b\"message\":\x7b\"content\":\"hi\"\x7d,\"done\":false\x7d"] 0 (by decide)

end LlmClient
